import Mathlib

/-!
Verification of the sandbox coding-agent repository against its specification.

The definitions below are shallow embeddings of the JavaScript sources:

* tools/command.js     — command allow/deny gate (isCommandAllowed)
* tools/git.js         — git_push branch substitution, backup/restore protocol
* tools/browser.js     — verify_url
* tools/filesystem.js  — safePath and a model of Node path.resolve (POSIX)
* agent/state.js       — setGitStatus and the git record
* agent/llm.js         — tryModel response decoding, formatToolResult
* agent/index.js       — the orchestration loop of main()

JavaScript strings are modelled as Lean String (a list of chars); machine
integers in scope (exit codes, HTTP status codes, timestamps) are Nat/Int,
none of the arithmetic here can overflow a JS double.
-/

namespace Sandbox

/-! ## JavaScript string primitives -/

/-- Model of JS String.prototype.startsWith: beginsWith pre s is true when pre
is a prefix of s, char by char. -/
def beginsWith : List Char → List Char → Bool
  | [], _ => true
  | _ :: _, [] => false
  | a :: as, b :: bs => a == b && beginsWith as bs

/-- Model of JS String.prototype.includes: chSub pat s is true when pat occurs
as a contiguous substring of s. -/
def chSub (pat : List Char) : List Char → Bool
  | [] => pat.isEmpty
  | c :: rest => beginsWith pat (c :: rest) || chSub pat rest

theorem beginsWith_iff (p s : List Char) : beginsWith p s = true ↔ p <+: s := by
  induction p generalizing s with
  | nil => simp [beginsWith, List.nil_prefix]
  | cons a as ih =>
    cases s with
    | nil => simp [beginsWith]
    | cons b bs =>
      simp only [beginsWith, Bool.and_eq_true, beq_iff_eq, ih]
      constructor
      · rintro ⟨rfl, t, rfl⟩
        exact ⟨t, rfl⟩
      · rintro ⟨t, h⟩
        cases h
        exact ⟨rfl, t, rfl⟩

/-- Character class used by the model of JS String.prototype.trim (the common
ASCII whitespace characters). -/
def isJsWs (c : Char) : Bool :=
  c == ' ' || c == '\t' || c == '\n' || c == '\r' || c == '\x0b' || c == '\x0c'

/-- Model of JS String.prototype.trim on a char list. -/
def trimWs (l : List Char) : List Char :=
  ((l.dropWhile isJsWs).reverse.dropWhile isJsWs).reverse

/-- Model of command.toLowerCase().trim() from isCommandAllowed
(tools/command.js line 76); Char.toLower lowercases exactly the ASCII
letters, which matches JS toLowerCase on the command names in scope. -/
def normalizeCmd (s : String) : String :=
  String.mk (trimWs (s.data.map Char.toLower))

/-! ## Command gate (tools/command.js) -/

/-- Own keys of the COMMAND_WHITELIST object literal (tools/command.js
lines 23-46); every key maps to the value true. -/
def COMMAND_WHITELIST_KEYS : List String :=
  ["node", "npm", "npx", "git",
   "ls", "cat", "head", "tail", "wc", "find", "grep",
   "echo", "pwd", "which", "env"]

/-- The COMMAND_BLOCKLIST array (tools/command.js lines 51-70). -/
def COMMAND_BLOCKLIST : List String :=
  ["rm", "rmdir", "mv", "cp", "chmod", "chown", "sudo", "su",
   "curl", "wget", "ssh", "scp", "eval", "exec", "kill", "killall",
   "shutdown", "reboot"]

/-- Property names inherited from Object.prototype that are spelled entirely
in lowercase and whose value is truthy. The whitelist check is the JS
property access COMMAND_WHITELIST[cmd], which walks the prototype chain, so
these names also pass the check even though they are not own keys; cmd has
been lowercased first, so inherited names containing an uppercase letter
(toString, valueOf, hasOwnProperty, ...) are unreachable. -/
def OBJECT_PROTO_LOWERCASE_TRUTHY : List String :=
  ["constructor", "__proto__"]

/-- Truthiness of the property access COMMAND_WHITELIST[cmd]
(tools/command.js line 84). -/
def whitelistLookupTruthy (cmd : String) : Bool :=
  COMMAND_WHITELIST_KEYS.contains cmd || OBJECT_PROTO_LOWERCASE_TRUTHY.contains cmd

/-- Result of isCommandAllowed; the reason text is abbreviated, only the
allowed flag is observed by callers and claims. -/
structure AllowCheck where
  allowed : Bool
  reason : Option String
deriving DecidableEq, Repr

/-- Embedding of isCommandAllowed (tools/command.js lines 75-89). -/
def isCommandAllowed (command : String) : AllowCheck :=
  let cmd := normalizeCmd command
  if COMMAND_BLOCKLIST.contains cmd then
    { allowed := false, reason := some "blocked for security" }
  else if whitelistLookupTruthy cmd = false then
    { allowed := false, reason := some "not in whitelist" }
  else
    { allowed := true, reason := none }

/-- C2: the command gate is not closed. The string "constructor" is present
in neither the allow-list nor the deny-list, yet isCommandAllowed returns
allowed:true, because the whitelist membership test is a JS property access
that finds Object.prototype.constructor through the prototype chain. The
same holds for "__proto__". -/
theorem C2_command_gate_prototype_leak :
    (isCommandAllowed "constructor").allowed = true ∧
    COMMAND_WHITELIST_KEYS.contains "constructor" = false ∧
    COMMAND_BLOCKLIST.contains "constructor" = false ∧
    (isCommandAllowed "__proto__").allowed = true ∧
    COMMAND_WHITELIST_KEYS.contains "__proto__" = false ∧
    COMMAND_BLOCKLIST.contains "__proto__" = false := by
  decide

/-! ## git_push branch substitution (tools/git.js lines 243-304) -/

/-- Decimal digit character for d < 10. -/
def digitChar (d : Nat) : Char := Char.ofNat (48 + d)

/-- Fueled helper for the decimal representation; the value shrinks strictly
on every recursive call, so any fuel of at least the value plus one is
enough and the zero-fuel branch is never reached from natDigits. -/
def natDigitsGo : Nat → Nat → List Char
  | 0, _ => []
  | fuel + 1, n =>
    if n < 10 then [digitChar n]
    else natDigitsGo fuel (n / 10) ++ [digitChar (n % 10)]

/-- Decimal representation of a natural number, as produced by JS template
interpolation of the integer Date.now() into a string. -/
def natDigits (n : Nat) : List Char := natDigitsGo (n + 1) n

theorem digitChar_isDigit (d : Nat) (h : d < 10) : (digitChar d).isDigit = true := by
  interval_cases d <;> decide

theorem natDigits_ne_nil (n : Nat) : natDigits n ≠ [] := by
  simp only [natDigits, natDigitsGo]
  split <;> simp

theorem natDigitsGo_all_digits (fuel : Nat) :
    ∀ n, ∀ c ∈ natDigitsGo fuel n, c.isDigit = true := by
  induction fuel with
  | zero => intro n c hc; simp [natDigitsGo] at hc
  | succ f ih =>
    intro n c hc
    simp only [natDigitsGo] at hc
    split at hc
    · simp only [List.mem_singleton] at hc
      subst hc
      exact digitChar_isDigit n (by omega)
    · rcases List.mem_append.1 hc with h1 | h2
      · exact ih (n / 10) c h1
      · simp only [List.mem_singleton] at h2
        subst h2
        exact digitChar_isDigit _ (Nat.mod_lt _ (by omega))

theorem natDigits_all_digits (n : Nat) : ∀ c ∈ natDigits n, c.isDigit = true :=
  natDigitsGo_all_digits (n + 1) n

/-- Branch actually pushed by git_push (tools/git.js lines 243-248): the
caller-supplied branch, except that "main" is replaced by a feature branch
named from the Date.now() timestamp. This featureBranch is both the argument
of the git push command (line 279) and the data.branch of the result. -/
def featureBranchOf (branch : String) (timestampMs : Nat) : String :=
  if branch = "main" then "agent/changes-" ++ String.mk (natDigits timestampMs)
  else branch

/-- Success-result data of git_push (tools/git.js lines 289-300), restricted
to the fields the claims observe. -/
structure GitPushData where
  branch : String
  originalRequest : String
  pushed : Bool
deriving DecidableEq, Repr

/-- Data returned by a successful git_push call. -/
def git_push_success_data (branch : String) (timestampMs : Nat) : GitPushData :=
  { branch := featureBranchOf branch timestampMs
    originalRequest := branch
    pushed := true }

/-- C3: the branch git_push pushes is never the primary branch "main"; when
the caller asks for "main" the pushed and returned branch is the freshly
generated agent/changes-(decimal digits of the timestamp). -/
theorem C3_push_never_targets_primary (branch : String) (timestampMs : Nat) :
    featureBranchOf branch timestampMs ≠ "main" ∧
    (git_push_success_data branch timestampMs).branch = featureBranchOf branch timestampMs ∧
    (branch = "main" →
      featureBranchOf branch timestampMs =
        "agent/changes-" ++ String.mk (natDigits timestampMs) ∧
      ∀ c ∈ natDigits timestampMs, c.isDigit = true) := by
  refine ⟨?_, rfl, ?_⟩
  · by_cases hb : branch = "main"
    · subst hb
      have hf : featureBranchOf "main" timestampMs
          = "agent/changes-" ++ String.mk (natDigits timestampMs) := by
        simp [featureBranchOf]
      rw [hf]
      intro h
      have hlen := congrArg String.length h
      rw [String.length_append] at hlen
      have h14 : ("agent/changes-" : String).length = 14 := by decide
      have h4 : ("main" : String).length = 4 := by decide
      rw [h14, h4] at hlen
      omega
    · simp [featureBranchOf, hb]
  · intro hb
    subst hb
    exact ⟨by simp [featureBranchOf], natDigits_all_digits timestampMs⟩

/-- Witness for C3 at the primary branch name and a concrete timestamp. -/
theorem C3_push_never_targets_primary_witness :
    featureBranchOf "main" 1700000000000 ≠ "main" ∧
    featureBranchOf "main" 1700000000000 = "agent/changes-1700000000000" := by
  have h := C3_push_never_targets_primary "main" 1700000000000
  refine ⟨h.1, ?_⟩
  rw [(h.2.2 rfl).1]
  decide

/-! ## Execution-state git record (agent/state.js, agent/index.js) -/

/-- The JS expression new || old, where a present empty string is falsy and
therefore keeps the old value. -/
def jsOrStr (new old : Option String) : Option String :=
  match new with
  | none => old
  | some s => if s = "" then old else some s

/-- The state.git record (agent/state.js lines 48-54). -/
structure GitRecord where
  committed : Bool
  pushed : Bool
  commit_hash : Option String
  branch : Option String
  pr_url : Option String
deriving DecidableEq, Repr

/-- Initial git record (agent/state.js initialState). -/
def initialGit : GitRecord :=
  { committed := false, pushed := false, commit_hash := none,
    branch := none, pr_url := none }

/-- Embedding of setGitStatus (agent/state.js lines 167-176): commit_hash is
overwritten unconditionally, while branch and pr_url fall back to the stored
value when the argument is absent or falsy. -/
def setGitStatus (g : GitRecord) (committed pushed : Bool)
    (commitHash branch prUrl : Option String) : GitRecord :=
  { committed := committed
    pushed := pushed
    commit_hash := commitHash
    branch := jsOrStr branch g.branch
    pr_url := jsOrStr prUrl g.pr_url }

/-- Successful git tool invocations that update the git record, with the
payload each passes to setGitStatus (agent/index.js lines 210-218). -/
inductive GitEvent where
  | commit (hash : Option String)
  | push (branch : Option String)
  | pr (branch : Option String) (prUrl : Option String)
deriving DecidableEq, Repr

/-- The setGitStatus call the dispatcher makes for each successful git tool
result (agent/index.js lines 210-218): git_commit passes committed=true,
pushed=false and the new hash; git_push and git_create_pr pass true, true and
the stored hash. -/
def applyGitEvent (g : GitRecord) : GitEvent → GitRecord
  | .commit h => setGitStatus g true false h none none
  | .push b => setGitStatus g true true g.commit_hash b none
  | .pr b u => setGitStatus g true true g.commit_hash b u

/-- C9 counterexample: after a successful commit, push, and a second
successful commit (git_commit treats "nothing to commit" as success with a
null hash), the pushed flag reverts from true to false and the previously
set commit_hash is replaced by null. -/
theorem C9_counterexample :
    (([GitEvent.commit (some "abc1234"), GitEvent.push (some "agent/changes-1")]).foldl
        applyGitEvent initialGit).pushed = true ∧
    (([GitEvent.commit (some "abc1234"), GitEvent.push (some "agent/changes-1")]).foldl
        applyGitEvent initialGit).commit_hash = some "abc1234" ∧
    (([GitEvent.commit (some "abc1234"), GitEvent.push (some "agent/changes-1"),
        GitEvent.commit none]).foldl applyGitEvent initialGit).pushed = false ∧
    (([GitEvent.commit (some "abc1234"), GitEvent.push (some "agent/changes-1"),
        GitEvent.commit none]).foldl applyGitEvent initialGit).commit_hash = none := by
  decide

/-- C9 amended: across successful git tool invocations the committed flag is
true after every update (hence never reverts), and branch and pr_url are only
added, never cleared; pushed and commit_hash are not monotone, because every
successful git_commit sets pushed to false and overwrites commit_hash. -/
theorem C9_git_record_partial_monotonicity (g : GitRecord) (e : GitEvent) :
    (applyGitEvent g e).committed = true ∧
    (g.branch ≠ none → (applyGitEvent g e).branch ≠ none) ∧
    (g.pr_url ≠ none → (applyGitEvent g e).pr_url ≠ none) := by
  cases e with
  | commit h =>
    refine ⟨rfl, ?_, ?_⟩ <;> simp [applyGitEvent, setGitStatus, jsOrStr]
  | push b =>
    refine ⟨rfl, ?_, ?_⟩
    · cases b with
      | none => simp [applyGitEvent, setGitStatus, jsOrStr]
      | some s =>
        by_cases hs : s = "" <;> simp [applyGitEvent, setGitStatus, jsOrStr, hs]
    · simp [applyGitEvent, setGitStatus, jsOrStr]
  | pr b u =>
    refine ⟨rfl, ?_, ?_⟩
    · cases b with
      | none => simp [applyGitEvent, setGitStatus, jsOrStr]
      | some s =>
        by_cases hs : s = "" <;> simp [applyGitEvent, setGitStatus, jsOrStr, hs]
    · cases u with
      | none => simp [applyGitEvent, setGitStatus, jsOrStr]
      | some s =>
        by_cases hs : s = "" <;> simp [applyGitEvent, setGitStatus, jsOrStr, hs]

/-- Witness for C9 amended at a record with branch and pr_url set. -/
theorem C9_git_record_partial_monotonicity_witness :
    (applyGitEvent
      { committed := true, pushed := true, commit_hash := some "abc",
        branch := some "agent/changes-1", pr_url := some "https://x/pr/1" }
      (GitEvent.commit none)).branch ≠ none := by
  exact (C9_git_record_partial_monotonicity
    { committed := true, pushed := true, commit_hash := some "abc",
      branch := some "agent/changes-1", pr_url := some "https://x/pr/1" }
    (GitEvent.commit none)).2.1 (by decide)

/-! ## verify_url (tools/browser.js lines 30-72) -/

/-- Outcome of the single HTTP GET that verify_url performs: either a
response arrives (with a status code and a body), or the request errors, or
it times out. -/
inductive HttpOutcome where
  | response (statusCode : Int) (body : String)
  | err (msg : String)
  | timeout
deriving DecidableEq, Repr

/-- Data field of a successful verify_url result. -/
structure VerifyData where
  url : String
  statusCode : Int
  accessible : Bool
  contentMatch : Bool
  bodyLength : Nat
  hasExpectedContent : Option Bool
deriving DecidableEq, Repr

/-- Result of verify_url. -/
structure VerifyResult where
  success : Bool
  data : Option VerifyData
  error : Option String
deriving DecidableEq, Repr

/-- Embedding of verify_url (tools/browser.js lines 30-72), with the HTTP
transport abstracted into an outcome argument. The url guard models the JS
truthiness test if (!url); hasExpectedContent is none for the JS string
"not checked". -/
def verify_url (url : String) (expectedContent : Option String)
    (outcome : HttpOutcome) : VerifyResult :=
  if url = "" then
    { success := false, data := none, error := some "url is required" }
  else
    match outcome with
    | .response statusCode body =>
      let ecTruthy : Bool := match expectedContent with
        | some e => decide (e ≠ "")
        | none => false
      let contentMatch :=
        if ecTruthy then
          match expectedContent with
          | some e => chSub e.data body.data
          | none => true
        else true
      { success := true
        data := some
          { url := url
            statusCode := statusCode
            accessible := decide (200 ≤ statusCode) && decide (statusCode < 400)
            contentMatch := contentMatch
            bodyLength := body.length
            hasExpectedContent := if ecTruthy then some contentMatch else none }
        error := none }
    | .err msg => { success := false, data := none, error := some msg }
    | .timeout => { success := false, data := none, error := some "Request timeout" }

/-- C10: for a nonempty url, verify_url reports success exactly when a
response was received, whatever its status code; reachability is reported
only in data.accessible as statusCode in [200,400); success is false exactly
when the request errored or timed out. -/
theorem C10_verify_url_success_independent_of_status (url : String)
    (expectedContent : Option String) (outcome : HttpOutcome) (hurl : url ≠ "") :
    ((verify_url url expectedContent outcome).success = true ↔
      ∃ s b, outcome = HttpOutcome.response s b) ∧
    ((verify_url url expectedContent outcome).success = false ↔
      (∃ m, outcome = HttpOutcome.err m) ∨ outcome = HttpOutcome.timeout) ∧
    (∀ s b, outcome = HttpOutcome.response s b →
      ((verify_url url expectedContent outcome).data.map VerifyData.statusCode = some s ∧
       (verify_url url expectedContent outcome).data.map VerifyData.accessible
         = some (decide (200 ≤ s) && decide (s < 400)))) := by
  cases outcome with
  | response s b =>
    refine ⟨by simp [verify_url, hurl], by simp [verify_url, hurl], ?_⟩
    intro s' b' h
    injection h with h1 h2
    subst h1; subst h2
    constructor <;> simp [verify_url, hurl]
  | err m => exact ⟨by simp [verify_url, hurl], by simp [verify_url, hurl], by simp⟩
  | timeout => exact ⟨by simp [verify_url, hurl], by simp [verify_url, hurl], by simp⟩

/-- Witness for C10: a 404 response still yields success:true, with
accessible false. -/
theorem C10_verify_url_witness :
    (verify_url "http://localhost:3000/" none (HttpOutcome.response 404 "nf")).success
      = true := by
  exact (C10_verify_url_success_independent_of_status "http://localhost:3000/" none
    (HttpOutcome.response 404 "nf") (by decide)).1.mpr ⟨404, "nf", rfl⟩

/-! ## JSON values (the parsed LLM responses and tool-result data) -/

/-- Model of a parsed JSON value. JSON numbers are modelled as integers: every
number appearing in the decoded protocol (exit codes, status codes, counts)
is integral and far below 2^53, so JS double arithmetic is exact on them. -/
inductive Json where
  | null
  | bool (b : Bool)
  | num (n : Int)
  | str (s : String)
  | arr (elems : List Json)
  | obj (fields : List (String × Json))

/-- JS truthiness of a JSON value. -/
def jsTruthy : Json → Bool
  | .null => false
  | .bool b => b
  | .num n => decide (n ≠ 0)
  | .str s => decide (s ≠ "")
  | .arr _ => true
  | .obj _ => true

/-- JS property access parsed[k]: some value when parsed is an object with
the key, none (undefined) otherwise. Duplicate keys do not occur in the
values decoded here. -/
def jlookup : Json → String → Option Json
  | .obj fs, k => List.lookup k fs
  | _, _ => none

/-! ## LLM response decoding (agent/llm.js tryModel, lines 425-457) -/

/-- Action data as built by tryModel from a successfully parsed response:
the done branch always stores done:true whatever the value of the done key
was, together with the (possibly absent) result and summary values. -/
inductive DecodedAction where
  | doneA (result : Option Json) (summary : Option Json)
  | planA (plan : Json)
  | toolA (tool : Json) (args : Json)

/-- Outcome of one tryModel decode: a failed call with an error, or a
successful call carrying the decoded action. -/
inductive LLMOutcome where
  | fail (error : String)
  | act (a : DecodedAction)

/-- Embedding of the response-shape dispatch of tryModel (agent/llm.js lines
425-457): the argument is the JSON.parse result, none when parsing failed.
The branches mirror: if (parsed.done !== undefined) ... else if (parsed.plan)
... else if (parsed.tool && parsed.args !== undefined) ... else error. -/
def decodeResponse (content : Option Json) : LLMOutcome :=
  match content with
  | none => .fail "Failed to parse LLM response as JSON"
  | some parsed =>
    if (jlookup parsed "done").isSome then
      .act (.doneA (jlookup parsed "result") (jlookup parsed "summary"))
    else if jsTruthy ((jlookup parsed "plan").getD Json.null) then
      .act (.planA ((jlookup parsed "plan").getD Json.null))
    else if jsTruthy ((jlookup parsed "tool").getD Json.null)
        && (jlookup parsed "args").isSome then
      .act (.toolA ((jlookup parsed "tool").getD Json.null)
        ((jlookup parsed "args").getD Json.null))
    else .fail "Invalid response structure"

/-- Helper shared by the loop analysis: a successful decode of a tool call
always carries a truthy tool value (the decoder tests parsed.tool). -/
theorem decodeResponse_tool_truthy (content : Option Json) (t a : Json)
    (h : decodeResponse content = .act (.toolA t a)) : jsTruthy t = true := by
  cases content with
  | none => simp [decodeResponse] at h
  | some parsed =>
    simp only [decodeResponse] at h
    split at h
    · simp at h
    · split at h
      · simp at h
      · split at h
        · rename_i hcond
          injection h with h1
          injection h1 with h2 h3
          subst h2
          rw [Bool.and_eq_true] at hcond
          exact hcond.1
        · simp at h

/-- C7 counterexample: the object with done:false matches none of the three
valid action shapes (done must be true), yet the decoder reports success and
coerces it to a done action. -/
theorem C7_counterexample :
    decodeResponse (some (Json.obj [("done", Json.bool false)]))
      = LLMOutcome.act (DecodedAction.doneA none none) := rfl

/-- C7 amended: the decoder reports success exactly when the response parsed
and the object has a done key (of any value, coerced to done:true), or a
truthy plan value, or a truthy tool value together with a present args key;
the branches are tested in that order, and every other shape or a parse
failure is surfaced as a failed call. -/
theorem C7_decoder_characterization (content : Option Json) :
    ((∃ a, decodeResponse content = .act a) ↔
      (∃ parsed, content = some parsed ∧
        ((jlookup parsed "done").isSome = true ∨
         jsTruthy ((jlookup parsed "plan").getD Json.null) = true ∨
         (jsTruthy ((jlookup parsed "tool").getD Json.null) = true ∧
          (jlookup parsed "args").isSome = true)))) ∧
    (∀ parsed, content = some parsed →
      (jlookup parsed "done").isSome = true →
      decodeResponse content
        = .act (.doneA (jlookup parsed "result") (jlookup parsed "summary"))) ∧
    (∀ parsed, content = some parsed →
      (jlookup parsed "done").isSome = false →
      jsTruthy ((jlookup parsed "plan").getD Json.null) = true →
      decodeResponse content = .act (.planA ((jlookup parsed "plan").getD Json.null))) ∧
    (∀ parsed, content = some parsed →
      (jlookup parsed "done").isSome = false →
      jsTruthy ((jlookup parsed "plan").getD Json.null) = false →
      jsTruthy ((jlookup parsed "tool").getD Json.null) = true →
      (jlookup parsed "args").isSome = true →
      decodeResponse content
        = .act (.toolA ((jlookup parsed "tool").getD Json.null)
            ((jlookup parsed "args").getD Json.null))) := by
  refine ⟨⟨?_, ?_⟩, ?_, ?_, ?_⟩
  · rintro ⟨a, ha⟩
    cases content with
    | none => simp [decodeResponse] at ha
    | some parsed =>
      refine ⟨parsed, rfl, ?_⟩
      by_cases h1 : (jlookup parsed "done").isSome
      · exact Or.inl h1
      · by_cases h2 : jsTruthy ((jlookup parsed "plan").getD Json.null)
        · exact Or.inr (Or.inl h2)
        · by_cases h3 : (jsTruthy ((jlookup parsed "tool").getD Json.null)
              && (jlookup parsed "args").isSome) = true
          · rw [Bool.and_eq_true] at h3
            exact Or.inr (Or.inr h3)
          · exfalso
            simp only [decodeResponse, h1, h2, h3] at ha
            simp at ha
  · rintro ⟨parsed, rfl, h⟩
    by_cases h1 : (jlookup parsed "done").isSome
    · exact ⟨DecodedAction.doneA (jlookup parsed "result") (jlookup parsed "summary"),
        by simp [decodeResponse, h1]⟩
    · by_cases h2 : jsTruthy ((jlookup parsed "plan").getD Json.null)
      · exact ⟨DecodedAction.planA ((jlookup parsed "plan").getD Json.null),
          by simp [decodeResponse, h1, h2]⟩
      · by_cases h3 : (jsTruthy ((jlookup parsed "tool").getD Json.null)
            && (jlookup parsed "args").isSome) = true
        · exact ⟨DecodedAction.toolA ((jlookup parsed "tool").getD Json.null)
            ((jlookup parsed "args").getD Json.null),
            by simp [decodeResponse, h1, h2, h3]⟩
        · exfalso
          rcases h with h | h | h
          · exact h1 h
          · exact h2 h
          · rw [Bool.and_eq_true] at h3
            exact h3 h
  · rintro parsed rfl h1
    simp [decodeResponse, h1]
  · rintro parsed rfl h1 h2
    simp [decodeResponse, h1, h2]
  · rintro parsed rfl h1 h2 h3 h4
    simp [decodeResponse, h1, h2, h3, h4]

/-- Witness for C7 amended: a plan response decodes to a successful plan
action through the characterization. -/
theorem C7_decoder_characterization_witness :
    decodeResponse (some (Json.obj [("plan", Json.arr [Json.str "step 1"])]))
      = LLMOutcome.act (DecodedAction.planA (Json.arr [Json.str "step 1"])) := by
  have h := (C7_decoder_characterization
    (some (Json.obj [("plan", Json.arr [Json.str "step 1"])]))).2.2.1
    (Json.obj [("plan", Json.arr [Json.str "step 1"])]) rfl rfl rfl
  exact h

/-! ## JSON.stringify(value, null, 2) and template interpolation -/

/-- Lowercase hexadecimal digit. -/
def hexDigitChar (n : Nat) : Char :=
  if n < 10 then Char.ofNat (48 + n) else Char.ofNat (87 + n)

/-- Escape of one character inside a JSON string literal, as JSON.stringify
produces it. -/
def escChar (c : Char) : List Char :=
  if c = '"' then ['\\', '"']
  else if c = '\\' then ['\\', '\\']
  else if c = '\x08' then ['\\', 'b']
  else if c = '\t' then ['\\', 't']
  else if c = '\n' then ['\\', 'n']
  else if c = '\x0c' then ['\\', 'f']
  else if c = '\r' then ['\\', 'r']
  else if c.toNat < 32 then
    ['\\', 'u', '0', '0', hexDigitChar (c.toNat / 16), hexDigitChar (c.toNat % 16)]
  else [c]

/-- Quoted, escaped JSON string literal. -/
def jsonQuote (s : String) : String :=
  "\"" ++ String.mk (s.data.map escChar).flatten ++ "\""

/-- Indentation produced by JSON.stringify with indent width 2 at nesting
level lvl. -/
def indentStr (lvl : Nat) : String := String.mk (List.replicate (2 * lvl) ' ')

mutual

/-- Model of JSON.stringify(j, null, 2) at nesting level lvl. -/
def jsonStringify (lvl : Nat) : Json → String
  | .null => "null"
  | .bool b => if b then "true" else "false"
  | .num n => toString n
  | .str s => jsonQuote s
  | .arr [] => "[]"
  | .arr (x :: xs) =>
    "[\n" ++ String.intercalate ",\n" (jsonStringifyItems (lvl + 1) (x :: xs))
      ++ "\n" ++ indentStr lvl ++ "]"
  | .obj [] => "\x7b\x7d"
  | .obj (f :: fs) =>
    "\x7b\n" ++ String.intercalate ",\n" (jsonStringifyFields (lvl + 1) (f :: fs))
      ++ "\n" ++ indentStr lvl ++ "\x7d"

/-- Stringified array elements, each on its own indented line. -/
def jsonStringifyItems (lvl : Nat) : List Json → List String
  | [] => []
  | x :: xs => (indentStr lvl ++ jsonStringify lvl x) :: jsonStringifyItems lvl xs

/-- Stringified object fields, each on its own indented line. -/
def jsonStringifyFields (lvl : Nat) : List (String × Json) → List String
  | [] => []
  | (k, v) :: fs =>
    (indentStr lvl ++ jsonQuote k ++ ": " ++ jsonStringify lvl v)
      :: jsonStringifyFields lvl fs

end

mutual

/-- Model of JS template interpolation of a value into a string. -/
def jsTemplate : Json → String
  | .null => "null"
  | .bool b => if b then "true" else "false"
  | .num n => toString n
  | .str s => s
  | .arr xs => String.intercalate "," (jsTemplateItems xs)
  | .obj _ => "[object Object]"

/-- Array elements under template interpolation (Array.prototype.toString
joins with commas, rendering null elements as empty strings). -/
def jsTemplateItems : List Json → List String
  | [] => []
  | x :: xs => jsTemplateItem x :: jsTemplateItems xs

/-- One array element under template interpolation. -/
def jsTemplateItem : Json → String
  | .null => ""
  | j => jsTemplate j

end

/-! ## formatToolResult (agent/llm.js lines 475-498) -/

/-- One message of the LLM-facing history. -/
structure JMessage where
  role : String
  content : String

/-- A tool result as formatToolResult receives it. -/
structure JToolResult where
  success : Bool
  data : Option Json
  error : Option String

/-- The JS optional access result.data?.k. -/
def jGetField (d : Option Json) (k : String) : Option Json :=
  match d with
  | some j => jlookup j k
  | none => none

/-- Strict equality of a JSON value with the number 0. -/
def isZeroNum : Json → Bool
  | .num 0 => true
  | _ => false

/-- The JS expression v || dflt rendered into a template: the value when
truthy, the default string otherwise (also when the field is absent). -/
def jsOrField (v : Option Json) (dflt : String) : String :=
  match v with
  | some j => if jsTruthy j then jsTemplate j else dflt
  | none => dflt

/-- Embedding of formatToolResult (agent/llm.js lines 475-498). No branch
truncates: the command branch interpolates stdout and stderr in full, and the
success branch embeds the whole JSON.stringify of the data. -/
def formatToolResult (toolName : String) (result : JToolResult) : JMessage :=
  let exitOpt := jGetField result.data "exitCode"
  let isError := !result.success
    || (match exitOpt with | some v => !(isZeroNum v) | none => false)
  let content :=
    if isError && exitOpt.isSome then
      "⚠️ COMMAND FAILED (exitCode="
        ++ (match exitOpt with | some v => jsTemplate v | none => "undefined")
        ++ ")\nCommand: " ++ jsOrField (jGetField result.data "command") toolName
        ++ "\nStdout: " ++ jsOrField (jGetField result.data "stdout") "(empty)"
        ++ "\nStderr: " ++ jsOrField (jGetField result.data "stderr") "(empty)"
        ++ "\n\nYou MUST fix the error before marking done."
    else if !result.success then
      "⚠️ TOOL ERROR: " ++ (match result.error with | some e => e | none => "undefined")
        ++ "\nYou may need to try a different approach."
    else
      "Tool \"" ++ toolName ++ "\" succeeded:\n"
        ++ (match result.data with | some d => jsonStringify 0 d | none => "undefined")
  { role := "user", content := content }

theorem string_length_mk (l : List Char) : (String.mk l).length = l.length := rfl

/-- C6: the message formatToolResult appends to the LLM-facing history is not
bounded by any fixed budget — for every bound there is a tool result (a
failed command whose stdout is large) whose formatted message is longer; no
truncation or truncation flag is applied on this path. -/
theorem C6_formatToolResult_unbounded (n : Nat) :
    ∃ result : JToolResult,
      n < (formatToolResult "run_command" result).content.length := by
  refine ⟨{ success := false,
            data := some (Json.obj
              [("command", Json.str "npm run build"),
               ("exitCode", Json.num 1),
               ("stdout", Json.str (String.mk ('x' :: List.replicate n 'a'))),
               ("stderr", Json.str "")]),
            error := none }, ?_⟩
  have hc : (formatToolResult "run_command"
      { success := false,
        data := some (Json.obj
          [("command", Json.str "npm run build"),
           ("exitCode", Json.num 1),
           ("stdout", Json.str (String.mk ('x' :: List.replicate n 'a'))),
           ("stderr", Json.str "")]),
        error := none }).content
      = "⚠️ COMMAND FAILED (exitCode="
          ++ jsTemplate (Json.num 1)
          ++ ")\nCommand: " ++ jsTemplate (Json.str "npm run build")
          ++ "\nStdout: "
          ++ jsTemplate (Json.str (String.mk ('x' :: List.replicate n 'a')))
          ++ "\nStderr: " ++ "(empty)"
          ++ "\n\nYou MUST fix the error before marking done." := rfl
  rw [hc]
  simp only [jsTemplate, String.length_append, string_length_mk, List.length_cons,
    List.length_replicate]
  omega

/-! ## Orchestration loop (agent/index.js main, lines 304-380) -/

/-- How a finished loop run last left the while: an explicit done action, a
fatal LLM-call failure, the break on a success response carrying a falsy
tool name, or an uncaught exception thrown during tool dispatch — several
tool bodies dereference their arguments before their try blocks (write_file
reads content.length at filesystem.js line 89, git_commit reads
message.substring at git.js line 193, git_create_pr reads title.substring),
so the exception escapes executeToolWithArgs, rejects main, and ends the
process through the main().catch handler and process.exit(1) at
agent/index.js lines 426-430; exit stays none when the loop ends by the
count < max condition. -/
inductive ExitKind where
  | doneAction
  | llmFatal
  | invalidAction
  | crashed
deriving DecidableEq, Repr

/-- The loop-visible slice of the execution state plus the local variables of
main: iteration.count, iteration.repairs and iteration.errors
(state.incrementIteration and state.addIterationError, agent/state.js lines
181-193), the done flag and finalResult locals, and the exit bookkeeping. -/
structure LoopState where
  count : Nat
  repairs : Nat
  errors : List String
  doneFlag : Bool
  finalResult : Option Json
  exit : Option ExitKind

/-- Loop state at entry of the while (state.reset gives count 0). -/
def initialLoopState : LoopState :=
  { count := 0, repairs := 0, errors := [], doneFlag := false,
    finalResult := none, exit := none }

/-- The fields of a tool result that the loop classification reads
(agent/index.js lines 362-366): the success flag, the optional
data.exitCode, and the error message. -/
structure LoopToolResult where
  success : Bool
  exitCode : Option Int
  error : Option String

/-- Outcome of one executeToolWithArgs dispatch: either a returned tool
result, or an exception thrown synchronously before the tool body's try
block (or from an awaited rejected promise) — executeToolWithArgs has no
try/catch, so a thrown outcome propagates out of the loop and aborts the
whole run. -/
inductive ToolOutcome where
  | value (r : LoopToolResult)
  | thrown (msg : String)

/-- Whether the entry of write_file throws before its try block: the logging
template at tools/filesystem.js line 89 evaluates content.length, which
throws a TypeError when content is undefined or null (on any other value the
property access merely yields undefined). -/
def write_file_entry_throws (content : Option Json) : Bool :=
  match content with
  | none => true
  | some .null => true
  | some _ => false

/-- Model of the dispatcher's write_file call (agent/index.js lines 100-101,
allTools.write_file(args.path, args.content)) combined with the entry of
write_file: a throw when the pre-try dereference of content throws,
otherwise the returned result of the body, abstracted by the argument. -/
def dispatch_write_file (args : Json) (bodyResult : LoopToolResult) : ToolOutcome :=
  if write_file_entry_throws (jlookup args "content") then
    .thrown "TypeError: Cannot read properties of undefined (reading length)"
  else .value bodyResult

/-- Error classification of a tool result (agent/index.js lines 362-363):
success false, or a present non-zero exitCode. -/
def toolFailed (tr : LoopToolResult) : Bool :=
  !tr.success || (match tr.exitCode with | some k => decide (k ≠ 0) | none => false)

/-- Error string recorded on a failed tool call (agent/index.js line 366):
toolResult.error when truthy, else the interpolated tool name plus space and
the word failed. -/
def errMsgOf (t : Json) (tr : LoopToolResult) : String :=
  match tr.error with
  | some e => if e = "" then jsTemplate t ++ " failed" else e
  | none => jsTemplate t ++ " failed"

/-- One pass of the while body of main (agent/index.js lines 304-380), given
the decoded LLM call outcome for this iteration and the outcome of the tool
dispatch the loop would perform. Returns the new state and whether the body
left the loop. The pass increments iteration.count first; an LLM failure
records the error and breaks; a plan response continues; a done response
sets the done flag and breaks; a tool response with a falsy tool name
records an error and breaks; otherwise the tool is dispatched: a thrown
dispatch (arguments dereferenced before the tool body's try block) unwinds
past the loop, recording nothing, and aborts the run through main().catch
and process.exit; a returned result classified as a failure only increments
the repair counter and appends the error, and the loop continues. -/
def stepBody (resp : LLMOutcome) (tres : ToolOutcome) (s : LoopState) :
    LoopState × Bool :=
  match resp with
  | .fail e =>
    ({ s with
        count := s.count + 1
        errors := s.errors ++ [e]
        repairs := s.repairs + 1
        exit := some .llmFatal }, true)
  | .act a =>
    match a with
    | .planA _ => ({ s with count := s.count + 1 }, false)
    | .doneA r _ =>
      ({ s with
          count := s.count + 1
          doneFlag := true
          finalResult := r
          exit := some .doneAction }, true)
    | .toolA t _ =>
      if jsTruthy t = false then
        ({ s with
            count := s.count + 1
            errors := s.errors ++ ["Invalid LLM response"]
            repairs := s.repairs + 1
            exit := some .invalidAction }, true)
      else
        match tres with
        | .thrown _ =>
          ({ s with
              count := s.count + 1
              exit := some .crashed }, true)
        | .value tr =>
          if toolFailed tr then
            ({ s with
                count := s.count + 1
                errors := s.errors ++ [errMsgOf t tr]
                repairs := s.repairs + 1 }, false)
          else ({ s with count := s.count + 1 }, false)

theorem stepBody_count (r : LLMOutcome) (t : ToolOutcome) (s : LoopState) :
    (stepBody r t s).1.count = s.count + 1 := by
  cases r with
  | fail e => rfl
  | act a =>
    cases a with
    | planA p => rfl
    | doneA x y => rfl
    | toolA tl args =>
      simp only [stepBody]
      split
      · rfl
      · split
        · rfl
        · split <;> rfl

/-- The while loop of main (agent/index.js line 304): while iteration.count
is below the maximum and the done flag is unset, run one pass; a pass that
breaks ends the loop immediately. The LLM outcomes and tool results of the
successive iterations are supplied as streams indexed by the pre-increment
count, which covers every possible sequence of responses. -/
def runLoop (resp : Nat → LLMOutcome) (tres : Nat → ToolOutcome) (max : Nat)
    (s : LoopState) : LoopState :=
  if _h : s.count < max ∧ s.doneFlag = false then
    if (stepBody (resp s.count) (tres s.count) s).2 then
      (stepBody (resp s.count) (tres s.count) s).1
    else runLoop resp tres max (stepBody (resp s.count) (tres s.count) s).1
  else s
termination_by max - s.count
decreasing_by
  rw [stepBody_count]
  omega

theorem runLoop_count_le (resp : Nat → LLMOutcome) (tres : Nat → ToolOutcome)
    (max : Nat) :
    ∀ fuel s, max - s.count ≤ fuel → s.count ≤ max →
      (runLoop resp tres max s).count ≤ max := by
  intro fuel
  induction fuel with
  | zero =>
    intro s hf hs
    rw [runLoop, dif_neg]
    · exact hs
    · rintro ⟨h1, _⟩
      omega
  | succ f ih =>
    intro s hf hs
    rw [runLoop]
    by_cases hc : s.count < max ∧ s.doneFlag = false
    · rw [dif_pos hc]
      split
      · rw [stepBody_count]
        omega
      · apply ih
        · rw [stepBody_count]
          omega
        · rw [stepBody_count]
          omega
    · rw [dif_neg hc]
      exact hs

/-- C4: for any streams of LLM outcomes and tool results, the loop (a total
function here, hence terminating) increments the iteration counter exactly
once at the start of every pass, never lets it exceed the configured
maximum while the guard requires count < max, and from the initial state
finishes with at most max passes — within the maximum plus the final pass
that produces done or a fatal error. -/
theorem C4_loop_termination (resp : Nat → LLMOutcome) (tres : Nat → ToolOutcome)
    (max : Nat) :
    (∀ r t s, (stepBody r t s).1.count = s.count + 1) ∧
    (∀ s : LoopState, s.count ≤ max → (runLoop resp tres max s).count ≤ max) ∧
    (runLoop resp tres max initialLoopState).count ≤ max := by
  refine ⟨stepBody_count, ?_, ?_⟩
  · intro s hs
    exact runLoop_count_le resp tres max (max - s.count) s (Nat.le_refl _) hs
  · exact runLoop_count_le resp tres max max initialLoopState (by simp [initialLoopState])
      (by simp [initialLoopState])

/-- Witness for C4 at a concrete budget and constant streams. -/
theorem C4_loop_termination_witness :
    (runLoop (fun _ => LLMOutcome.fail "boom")
      (fun _ => ToolOutcome.value { success := true, exitCode := none, error := none })
      15 initialLoopState).count ≤ 15 := by
  exact (C4_loop_termination (fun _ => LLMOutcome.fail "boom")
    (fun _ => ToolOutcome.value { success := true, exitCode := none, error := none }) 15).2.2

theorem runLoop_exit_characterization (resp : Nat → LLMOutcome)
    (hresp : ∀ i t a, resp i = .act (.toolA t a) → jsTruthy t = true)
    (tres : Nat → ToolOutcome) (max : Nat) :
    ∀ fuel s, max - s.count ≤ fuel → s.exit = none → s.doneFlag = false →
      (runLoop resp tres max s).exit = some ExitKind.doneAction ∨
      (runLoop resp tres max s).exit = some ExitKind.llmFatal ∨
      (runLoop resp tres max s).exit = some ExitKind.crashed ∨
      ((runLoop resp tres max s).exit = none ∧ max ≤ (runLoop resp tres max s).count) := by
  intro fuel
  induction fuel with
  | zero =>
    intro s hf hexit hdone
    rw [runLoop, dif_neg]
    · exact Or.inr (Or.inr (Or.inr ⟨hexit, by omega⟩))
    · rintro ⟨h1, _⟩
      omega
  | succ f ih =>
    intro s hf hexit hdone
    rw [runLoop]
    by_cases hc : s.count < max ∧ s.doneFlag = false
    · rw [dif_pos hc]
      cases hr : resp s.count with
      | fail e =>
        simp only [hr, stepBody]
        exact Or.inr (Or.inl rfl)
      | act a =>
        cases a with
        | planA p =>
          simp only [hr, stepBody]
          exact ih _ (by simp; omega) hexit hdone
        | doneA x y =>
          simp only [hr, stepBody]
          exact Or.inl rfl
        | toolA tl args =>
          have htl : jsTruthy tl = true := hresp s.count tl args hr
          simp only [hr, stepBody, htl, Bool.true_eq_false, if_false]
          cases ht : tres s.count with
          | thrown m =>
            simp only []
            exact Or.inr (Or.inr (Or.inl rfl))
          | value tr =>
            by_cases hfail : toolFailed tr
            · simp only [hfail, if_true]
              exact ih _ (by simp; omega) hexit hdone
            · simp only [hfail, if_false]
              exact ih _ (by simp; omega) hexit hdone
    · rw [dif_neg hc]
      refine Or.inr (Or.inr (Or.inr ⟨hexit, ?_⟩))
      rcases not_and_or.1 hc with h | h
      · omega
      · exact absurd hdone h

/-- The decoder-accepted action that reaches the crash: tool is the truthy
string write_file and args is present but carries no path and no content,
exactly the shape the original exclusivity claim presumed harmless. -/
def crashAction : Json :=
  Json.obj [("tool", Json.str "write_file"), ("args", Json.obj [])]

/-- LLM stream returning the crashing action on every call. -/
def crashResp : Nat → LLMOutcome := fun _ => decodeResponse (some crashAction)

/-- Dispatch stream for crashAction: the write_file dispatch with empty
args, whose pre-try dereference of content throws (the body result argument
is irrelevant, the thrown branch is taken). -/
def crashTres : Nat → ToolOutcome :=
  fun _ => dispatch_write_file (Json.obj [])
    { success := true, exitCode := none, error := none }

/-- C5 counterexample: dispatching the decoder-accepted action
tool:write_file with empty args throws before write_file's try block
(content.length at filesystem.js line 89), the exception escapes
executeToolWithArgs and aborts the run — so the loop run ends on its first
pass by a path that is neither an explicit done action, nor a fatal
LLM-call failure, nor iteration-budget exhaustion, refuting the claimed
exit-path exclusivity. -/
theorem C5_counterexample :
    decodeResponse (some crashAction)
      = LLMOutcome.act (DecodedAction.toolA (Json.str "write_file") (Json.obj [])) ∧
    write_file_entry_throws (jlookup (Json.obj []) "content") = true ∧
    ¬((runLoop crashResp crashTres 15 initialLoopState).exit = some ExitKind.doneAction ∨
      (runLoop crashResp crashTres 15 initialLoopState).exit = some ExitKind.llmFatal ∨
      ((runLoop crashResp crashTres 15 initialLoopState).exit = none ∧
        15 ≤ (runLoop crashResp crashTres 15 initialLoopState).count)) ∧
    (runLoop crashResp crashTres 15 initialLoopState).exit = some ExitKind.crashed ∧
    (runLoop crashResp crashTres 15 initialLoopState).count = 1 := by
  have hrun : runLoop crashResp crashTres 15 initialLoopState
      = { count := 1, repairs := 0, errors := [], doneFlag := false,
          finalResult := none, exit := some ExitKind.crashed } := by
    rw [runLoop, dif_pos (by exact ⟨by decide, rfl⟩)]
    rfl
  rw [hrun]
  refine ⟨rfl, rfl, ?_, rfl, rfl⟩
  rintro (h | h | ⟨h, _⟩) <;> simp at h

/-- C5 amended: with the LLM stream produced by the response decoder, the
loop run terminates only via an explicit done action, a fatal LLM-call
failure, an uncaught exception from tool dispatch (which aborts the whole
run through main().catch and process.exit), or exhaustion of the iteration
budget (exit none with count at the maximum); and a pass whose tool result
is returned and classified as a failure never ends the loop — it leaves the
done flag and exit reason untouched and only increments the repair counter
and appends the error for the next iteration. -/
theorem C5_exit_path_characterization (jstream : Nat → Option Json)
    (tres : Nat → ToolOutcome) (max : Nat) :
    ((runLoop (fun i => decodeResponse (jstream i)) tres max initialLoopState).exit
        = some ExitKind.doneAction ∨
     (runLoop (fun i => decodeResponse (jstream i)) tres max initialLoopState).exit
        = some ExitKind.llmFatal ∨
     (runLoop (fun i => decodeResponse (jstream i)) tres max initialLoopState).exit
        = some ExitKind.crashed ∨
     ((runLoop (fun i => decodeResponse (jstream i)) tres max initialLoopState).exit
        = none ∧
      max ≤ (runLoop (fun i => decodeResponse (jstream i)) tres max initialLoopState).count)) ∧
    (∀ (s : LoopState) (tl args : Json) (tr : LoopToolResult),
      jsTruthy tl = true → toolFailed tr = true →
      (stepBody (.act (.toolA tl args)) (.value tr) s).2 = false ∧
      (stepBody (.act (.toolA tl args)) (.value tr) s).1.exit = s.exit ∧
      (stepBody (.act (.toolA tl args)) (.value tr) s).1.doneFlag = s.doneFlag ∧
      (stepBody (.act (.toolA tl args)) (.value tr) s).1.repairs = s.repairs + 1 ∧
      (stepBody (.act (.toolA tl args)) (.value tr) s).1.errors
        = s.errors ++ [errMsgOf tl tr]) := by
  constructor
  · exact runLoop_exit_characterization (fun i => decodeResponse (jstream i))
      (fun i t a h => decodeResponse_tool_truthy (jstream i) t a h) tres max
      (max - 0) initialLoopState (Nat.le_refl _) rfl rfl
  · intro s tl args tr htl hfail
    simp [stepBody, htl, hfail]

/-- Witness for C5 amended at a concrete returned failing tool result. -/
theorem C5_exit_path_characterization_witness :
    (stepBody (.act (.toolA (Json.str "run_build") Json.null))
      (.value { success := false, exitCode := some 1, error := some "build failed" })
      initialLoopState).2 = false := by
  exact ((C5_exit_path_characterization (fun _ => none)
    (fun _ => ToolOutcome.value
      { success := false, exitCode := some 1, error := some "build failed" }) 15).2
    initialLoopState (Json.str "run_build") Json.null
    { success := false, exitCode := some 1, error := some "build failed" }
    (by decide) (by decide)).1

/-! ## Backup/restore protocol (tools/git.js lines 393-499)

The repository state is modelled by the contents of the tracked files at
HEAD, the current working contents of the tracked files, the untracked
files, and the stash stack (newest first, each entry a message plus the
saved tracked working contents). The git commands the three backup tools
issue are given a small-step semantics; read-only commands (status, stash
list, rev-parse) leave the state unchanged, git stash push without -u saves
and resets only tracked modifications, checkout dot restores tracked files
from HEAD, clean -fd deletes untracked files, and reset HEAD only unstages
(the index is not modelled separately, so it is the identity here). -/

/-- Association-list update (file write into a directory listing). -/
def setKV (l : List (String × String)) (k v : String) : List (String × String) :=
  match l with
  | [] => [(k, v)]
  | (k2, v2) :: rest => if k2 = k then (k, v) :: rest else (k2, v2) :: setKV rest k v

/-- Repository state visible to the backup protocol. -/
structure RepoState where
  headTracked : List (String × String)
  workingTracked : List (String × String)
  untracked : List (String × String)
  stashes : List (String × List (String × String))
deriving DecidableEq, Repr

/-- Whether git status --porcelain prints anything. -/
def repoDirty (R : RepoState) : Bool :=
  decide (R.workingTracked ≠ R.headTracked) || decide (R.untracked ≠ [])

/-- The git commands issued by the backup tools. -/
inductive GitCmd where
  | statusPorcelain
  | stashPush (msg : String)
  | stashList
  | stashPop
  | revParseHead
  | checkoutAll
  | cleanFd
  | resetHead
deriving DecidableEq, Repr

/-- Effect of one git command on the repository state. -/
def applyCmd (R : RepoState) : GitCmd → RepoState
  | .statusPorcelain => R
  | .stashList => R
  | .revParseHead => R
  | .resetHead => R
  | .stashPush msg =>
    if R.workingTracked ≠ R.headTracked then
      { R with
          workingTracked := R.headTracked
          stashes := (msg, R.workingTracked) :: R.stashes }
    else R
  | .checkoutAll => { R with workingTracked := R.headTracked }
  | .stashPop =>
    match R.stashes with
    | [] => R
    | e :: rest => { R with workingTracked := e.2, stashes := rest }
  | .cleanFd => { R with untracked := [] }

/-- Commands issued by git_stash_backup (tools/git.js lines 397-430): a
status check, a stash push only when the tree is dirty, and a rev-parse of
HEAD. -/
def stashBackupCmds (R : RepoState) : List GitCmd :=
  if repoDirty R then
    [.statusPorcelain, .stashPush "AGENT_BACKUP_PRE_MODIFICATION", .revParseHead]
  else [.statusPorcelain, .revParseHead]

/-- The BACKUP_STASH_REF module variable after git_stash_backup: set only
when the tree was dirty, otherwise left as it was. -/
def stashBackupRef (R : RepoState) (old : Option String) : Option String :=
  if repoDirty R then some "stash@\x7b0\x7d" else old

/-- Embedding of git_stash_backup: the repository after the issued commands,
and the new backup reference. -/
def git_stash_backup (R : RepoState) (ref : Option String) :
    RepoState × Option String :=
  (List.foldl applyCmd R (stashBackupCmds R), stashBackupRef R ref)

/-- Commands issued by git_clear_backup (tools/git.js lines 474-499): only a
stash list — and that only when a backup reference is outstanding; the
stash is deliberately not dropped. -/
def clearBackupCmds (ref : Option String) : List GitCmd :=
  match ref with
  | some _ => [.stashList]
  | none => []

/-- Embedding of git_clear_backup: the repository after the issued commands,
the cleared backup reference, and the success flag of the result. -/
def git_clear_backup (R : RepoState) (ref : Option String) :
    RepoState × Option String × Bool :=
  (List.foldl applyCmd R (clearBackupCmds ref), none, true)

/-- Whether the stash list output mentions the backup marker message. -/
def stashListHasMarker (R : RepoState) : Bool :=
  R.stashes.any fun e => chSub "AGENT_BACKUP_PRE_MODIFICATION".data e.1.data

/-- Commands issued by git_restore_backup (tools/git.js lines 437-468):
checkout dot, clean -fd, reset HEAD, then — when a backup reference is
outstanding — a stash list and, if the marker is present, a stash pop. -/
def restoreBackupCmds (R : RepoState) (ref : Option String) : List GitCmd :=
  [.checkoutAll, .cleanFd, .resetHead] ++
    (match ref with
     | some _ =>
       if stashListHasMarker { R with workingTracked := R.headTracked, untracked := [] } then
         [.stashList, .stashPop]
       else [.stashList]
     | none => [])

/-- Embedding of git_restore_backup. -/
def git_restore_backup (R : RepoState) (ref : Option String) :
    RepoState × Option String :=
  (List.foldl applyCmd R (restoreBackupCmds R ref), none)

/-- The repository effect of write_file (tools/filesystem.js write_file):
only the working contents change — a file tracked at HEAD is modified in
place, any other path becomes or updates an untracked file; the stash stack
and HEAD are untouched. -/
def applyWrite (R : RepoState) (p c : String) : RepoState :=
  if (R.headTracked.lookup p).isSome then
    { R with workingTracked := setKV R.workingTracked p c }
  else
    { R with untracked := setKV R.untracked p c }

theorem applyWrite_stashes (R : RepoState) (p c : String) :
    (applyWrite R p c).stashes = R.stashes := by
  unfold applyWrite
  split <;> rfl

theorem foldWrites_stashes (writes : List (String × String)) :
    ∀ R : RepoState,
      (writes.foldl (fun R pc => applyWrite R pc.1 pc.2) R).stashes = R.stashes := by
  induction writes with
  | nil => intro R; rfl
  | cons w ws ih =>
    intro R
    rw [List.foldl_cons, ih, applyWrite_stashes]

theorem clearBackup_repo_id (R : RepoState) (ref : Option String) :
    List.foldl applyCmd R (clearBackupCmds ref) = R := by
  cases ref <;> rfl

/-- C8: after git_stash_backup and any sequence of file writes, with no
intervening git_restore_backup, git_clear_backup leaves the repository
exactly as it was — no checkout, reset or clean is performed and the working
tree keeps its modifications —, clears the outstanding backup reference,
reports success, and does not drop the pre-modification stash: when the tree
was dirty at backup time, the pushed stash entry is still on the stack. -/
theorem C8_clear_backup_frame (R0 : RepoState) (writes : List (String × String)) :
    (git_clear_backup
        (writes.foldl (fun R pc => applyWrite R pc.1 pc.2) (git_stash_backup R0 none).1)
        (git_stash_backup R0 none).2).1
      = writes.foldl (fun R pc => applyWrite R pc.1 pc.2) (git_stash_backup R0 none).1 ∧
    (git_clear_backup
        (writes.foldl (fun R pc => applyWrite R pc.1 pc.2) (git_stash_backup R0 none).1)
        (git_stash_backup R0 none).2).2.1 = none ∧
    (git_clear_backup
        (writes.foldl (fun R pc => applyWrite R pc.1 pc.2) (git_stash_backup R0 none).1)
        (git_stash_backup R0 none).2).2.2 = true ∧
    (R0.workingTracked ≠ R0.headTracked →
      (git_clear_backup
          (writes.foldl (fun R pc => applyWrite R pc.1 pc.2) (git_stash_backup R0 none).1)
          (git_stash_backup R0 none).2).1.stashes
        = ("AGENT_BACKUP_PRE_MODIFICATION", R0.workingTracked) :: R0.stashes) := by
  refine ⟨clearBackup_repo_id _ _, rfl, rfl, ?_⟩
  intro hdirty
  simp only [git_clear_backup]
  rw [clearBackup_repo_id, foldWrites_stashes]
  have hd : repoDirty R0 = true := by
    simp [repoDirty, hdirty]
  simp [git_stash_backup, stashBackupCmds, hd, applyCmd, hdirty]

/-- Witness for C8 at a concrete dirty repository. -/
theorem C8_clear_backup_frame_witness :
    (git_clear_backup
        ([("src/a.ts", "new2")].foldl (fun R pc => applyWrite R pc.1 pc.2)
          (git_stash_backup
            { headTracked := [("src/a.ts", "old")],
              workingTracked := [("src/a.ts", "new")],
              untracked := [], stashes := [] } none).1)
        (git_stash_backup
          { headTracked := [("src/a.ts", "old")],
            workingTracked := [("src/a.ts", "new")],
            untracked := [], stashes := [] } none).2).1.stashes
      = [("AGENT_BACKUP_PRE_MODIFICATION", [("src/a.ts", "new")])] := by
  exact (C8_clear_backup_frame
    { headTracked := [("src/a.ts", "old")],
      workingTracked := [("src/a.ts", "new")],
      untracked := [], stashes := [] }
    [("src/a.ts", "new2")]).2.2.2 (by decide)

/-! ## Path guard (tools/filesystem.js safePath, lines 41-82)

Paths are char lists; PROJECT_ROOT is an absolute normalized POSIX path
(filesystem.js initializes it with path.resolve). Node path.resolve on POSIX
is modelled segment by segment: the input is appended to the root unless it
is itself absolute, the combined string is split on the separator, and the
segments are normalized left to right, with a dot segment and empty segments
dropped and a dot-dot segment popping the previous one (a pop at the
filesystem root is a no-op). -/

/-- The NUL character of the poison-null-byte check. -/
def nullChar : Char := Char.ofNat 0

/-- Split on the separator character, keeping empty pieces, as
String.prototype.split would. -/
def splitSlash : List Char → List (List Char)
  | [] => [[]]
  | c :: rest =>
    if c = '/' then [] :: splitSlash rest
    else
      match splitSlash rest with
      | [] => [[c]]
      | p :: ps => (c :: p) :: ps

/-- One normalization step of path resolution over an accumulated stack of
path segments. -/
def normStep (acc : List (List Char)) (seg : List Char) : List (List Char) :=
  if seg = [] ∨ seg = ['.'] then acc
  else if seg = ['.', '.'] then acc.dropLast
  else acc ++ [seg]

/-- The normalized segments of path.resolve(root, input). -/
def resolveSegs (root input : List Char) : List (List Char) :=
  let combined := if input.head? = some '/' then input else root ++ '/' :: input
  (splitSlash combined).foldl normStep []

/-- Model of Node path.resolve(root, input) for an absolute normalized
root. -/
def posixResolve (root input : List Char) : List Char :=
  '/' :: List.intercalate ['/'] (resolveSegs root input)

/-- Pattern matching two dots followed by a slash or backslash anywhere. -/
def patDotDot (s : List Char) : Bool :=
  chSub ['.', '.', '/'] s || chSub ['.', '.', '\\'] s

/-- Pattern matching a leading slash or backslash. -/
def patAbsolute : List Char → Bool
  | c :: _ => c == '/' || c == '\\'
  | [] => false

/-- Pattern matching a leading tilde. -/
def patHome : List Char → Bool
  | c :: _ => c == '~'
  | [] => false

/-- Pattern matching a dollar-brace variable expansion anywhere. -/
def patVarExp (s : List Char) : Bool := chSub ['$', Char.ofNat 123] s

/-- Pattern matching a dollar-paren command substitution anywhere. -/
def patCmdSub (s : List Char) : Bool := chSub ['$', '('] s

/-- The suspiciousPatterns array (filesystem.js lines 48-54), in order. -/
def suspiciousPatterns : List (List Char → Bool) :=
  [patDotDot, patAbsolute, patHome, patVarExp, patCmdSub]

/-- Result of safePath, restricted to the fields callers observe; the error
text is dropped. -/
structure SafePathResult where
  valid : Bool
  path : Option (List Char)
deriving DecidableEq, Repr

/-- Embedding of safePath (filesystem.js lines 41-82). The ends-with-sep
tests are the getLast? comparisons; the testResolved computed inside the
pattern loop equals the resolved value of the final check, so it is written
as the same term. -/
def safePath (root input : List Char) : SafePathResult :=
  if chSub [nullChar] input then { valid := false, path := none }
  else if suspiciousPatterns.any (fun pat =>
      pat input && !(beginsWith root input) &&
        (!(beginsWith (root ++ ['/']) (posixResolve root input))
          && decide (posixResolve root input ≠ root))) then
    { valid := false, path := none }
  else
    let resolved := posixResolve root input
    let normalizedRoot := if root.getLast? = some '/' then root else root ++ ['/']
    let normalizedResolved :=
      if resolved.getLast? = some '/' then resolved else resolved ++ ['/']
    if decide (resolved ≠ root) && !(beginsWith normalizedRoot normalizedResolved) then
      { valid := false, path := none }
    else { valid := true, path := some resolved }

/-- The inputs the confinement claim ranges over: null bytes, dot-dot
traversal, absolute paths, home-directory syntax. -/
def flaggedInput (s : List Char) : Bool :=
  chSub [nullChar] s || patDotDot s || patAbsolute s || patHome s

theorem splitSlash_ne_nil (s : List Char) : splitSlash s ≠ [] := by
  cases s with
  | nil => simp [splitSlash]
  | cons c rest =>
    simp only [splitSlash]
    split
    · simp
    · split <;> simp

theorem splitSlash_no_slash (s : List Char) : ∀ p ∈ splitSlash s, '/' ∉ p := by
  induction s with
  | nil =>
    intro p hp
    simp only [splitSlash, List.mem_singleton] at hp
    simp [hp]
  | cons c rest ih =>
    intro p hp
    simp only [splitSlash] at hp
    by_cases hc : c = '/'
    · rw [if_pos hc] at hp
      rcases List.mem_cons.1 hp with rfl | hmem
      · simp
      · exact ih p hmem
    · rw [if_neg hc] at hp
      cases hsp : splitSlash rest with
      | nil => exact absurd hsp (splitSlash_ne_nil rest)
      | cons q qs =>
        rw [hsp] at hp
        rcases List.mem_cons.1 hp with rfl | hmem
        · intro hmem2
          rcases List.mem_cons.1 hmem2 with h1 | h2
          · exact hc h1.symm
          · exact ih q (by rw [hsp]; exact List.mem_cons_self q qs) h2
        · exact ih p (by rw [hsp]; exact List.mem_cons_of_mem q hmem)

theorem foldl_normStep_good (pieces : List (List Char)) :
    ∀ acc : List (List Char),
      (∀ p ∈ pieces, '/' ∉ p) → (∀ a ∈ acc, a ≠ [] ∧ '/' ∉ a) →
      ∀ seg ∈ pieces.foldl normStep acc, seg ≠ [] ∧ '/' ∉ seg := by
  induction pieces with
  | nil => intro acc _ hacc seg hseg; exact hacc seg hseg
  | cons c rest ih =>
    intro acc hp hacc seg hseg
    rw [List.foldl_cons] at hseg
    refine ih (normStep acc c) (fun p hp2 => hp p (List.mem_cons_of_mem c hp2)) ?_ seg hseg
    intro a ha
    unfold normStep at ha
    split at ha
    · exact hacc a ha
    · split at ha
      · exact hacc a (List.dropLast_subset acc ha)
      · rcases List.mem_append.1 ha with h1 | h2
        · exact hacc a h1
        · rw [List.mem_singleton] at h2
          subst h2
          rename_i hni _
          push_neg at hni
          exact ⟨hni.1, hp a (List.mem_cons_self a rest)⟩

theorem resolveSegs_good (root input : List Char) :
    ∀ seg ∈ resolveSegs root input, seg ≠ [] ∧ '/' ∉ seg := by
  unfold resolveSegs
  apply foldl_normStep_good
  · exact splitSlash_no_slash _
  · intro a ha
    simp at ha

theorem cons_intercalate_getLast (segs : List (List Char)) :
    (∀ p ∈ segs, p ≠ [] ∧ '/' ∉ p) → segs ≠ [] →
    ('/' :: List.intercalate ['/'] segs).getLast? ≠ some '/' := by
  induction segs with
  | nil => intro _ hne; exact absurd rfl hne
  | cons a rest ih =>
    intro hgood _
    cases rest with
    | nil =>
      have hint : List.intercalate ['/'] [a] = a := by simp [List.intercalate]
      rw [hint]
      intro hlast
      have hane : a ≠ [] := (hgood a (List.mem_cons_self a [])).1
      have hmem : '/' ∈ a := by
        cases a with
        | nil => exact absurd rfl hane
        | cons x xs =>
          rw [List.getLast?_cons_cons] at hlast
          obtain ⟨hne2, heq⟩ := List.mem_getLast?_eq_getLast hlast
          rw [heq]
          exact List.getLast_mem hne2
      exact (hgood a (List.mem_cons_self a [])).2 hmem
    | cons b rest2 =>
      have hint : List.intercalate ['/'] (a :: b :: rest2)
          = a ++ '/' :: List.intercalate ['/'] (b :: rest2) := rfl
      rw [hint]
      have hr : ('/' :: (a ++ '/' :: List.intercalate ['/'] (b :: rest2)))
          = ('/' :: a) ++ ('/' :: List.intercalate ['/'] (b :: rest2)) := by simp
      rw [hr, List.getLast?_append_of_ne_nil _ (by simp)]
      exact ih (fun p hp => hgood p (List.mem_cons_of_mem a hp)) (by simp)

theorem posixResolve_last_sep (root input : List Char)
    (h : (posixResolve root input).getLast? = some '/') :
    posixResolve root input = ['/'] := by
  by_cases hne : resolveSegs root input = []
  · simp [posixResolve, hne, List.intercalate]
  · exact absurd h (cons_intercalate_getLast _ (resolveSegs_good root input) hne)

theorem prefix_transfer_sep {root resolved : List Char}
    (h : (root ++ ['/']) <+: (resolved ++ ['/'])) (hne : resolved ≠ root) :
    (root ++ ['/']) <+: resolved := by
  obtain ⟨t, ht⟩ := h
  by_cases h0 : t = []
  · subst h0
    rw [List.append_nil] at ht
    have := congrArg List.dropLast ht
    rw [List.dropLast_concat, List.dropLast_concat] at this
    exact absurd this.symm hne
  · have := congrArg List.dropLast ht
    rw [List.dropLast_append_of_ne_nil _ h0, List.dropLast_concat] at this
    exact ⟨t.dropLast, this⟩

/-- C1: whenever the input contains a null byte, dot-dot traversal, an
absolute prefix, or home-directory syntax, safePath accepts only if the
input resolved against the project root is the root itself or strictly
nested under it at a path-separator boundary (so every such input that
escapes the root is rejected); a plain relative path is accepted and
resolves to the root joined with it; a sibling directory whose name has the
root as a string prefix is rejected, as are dot-dot traversal out of the
root and null bytes. -/
theorem C1_path_confinement :
    (∀ root input : List Char,
      root.head? = some '/' → root.getLast? ≠ some '/' →
      flaggedInput input = true →
      (safePath root input).valid = true →
      (posixResolve root input = root ∨ (root ++ ['/']) <+: posixResolve root input)) ∧
    safePath "/proj".data "src/a.ts".data
      = { valid := true, path := some "/proj/src/a.ts".data } ∧
    (safePath "/proj".data "/proj-other/x".data).valid = false ∧
    (safePath "/proj".data "../../etc/passwd".data).valid = false ∧
    (safePath "/proj".data "src\x00a.ts".data).valid = false := by
  refine ⟨?_, by decide, by decide, by decide, by decide⟩
  intro root input hhead hlast _hflag hvalid
  by_cases hr : posixResolve root input = root
  · exact Or.inl hr
  · right
    simp only [safePath] at hvalid
    split at hvalid
    · simp at hvalid
    · split at hvalid
      · simp at hvalid
      · split at hvalid
        · rename_i hres
          have heq := posixResolve_last_sep root input hres
          split at hvalid
          · simp at hvalid
          · rename_i hcond
            by_cases hp : beginsWith (root ++ ['/']) (posixResolve root input) = true
            · obtain ⟨t, ht⟩ := (beginsWith_iff _ _).1 hp
              rw [heq] at ht
              have hlen := congrArg List.length ht
              simp at hlen
              have hroot : root = [] := List.length_eq_zero.1 (by omega)
              rw [hroot] at hhead
              simp at hhead
            · exfalso
              apply hcond
              rw [Bool.and_eq_true]
              refine ⟨by simp [hr], ?_⟩
              rw [Bool.not_eq_true] at hp
              simp [hp]
        · split at hvalid
          · simp at hvalid
          · rename_i hcond
            by_cases hp : beginsWith (root ++ ['/']) (posixResolve root input ++ ['/']) = true
            · exact prefix_transfer_sep ((beginsWith_iff _ _).1 hp) hr
            · exfalso
              apply hcond
              rw [Bool.and_eq_true]
              refine ⟨by simp [hr], ?_⟩
              rw [Bool.not_eq_true] at hp
              simp [hp]

/-- Witness for C1 at the concrete root and a flagged input that stays
inside the root: the accepted path is nested under the root. -/
theorem C1_path_confinement_witness :
    posixResolve "/proj".data "/proj/src".data = "/proj".data ∨
      ("/proj".data ++ ['/']) <+: posixResolve "/proj".data "/proj/src".data := by
  exact C1_path_confinement.1 "/proj".data "/proj/src".data (by decide) (by decide)
    (by decide) (by decide)

end Sandbox
